import Mathlib

set_option maxRecDepth 4000
set_option linter.unusedVariables false

/-!
Verification development for cmake/mng_impl.py, a package fetch-and-cache
tool. The Python source is shallowly embedded: pure computations (the
descriptor fingerprint, the archive prefix computation) are translated as
executable Lean functions; the stateful orchestrator is translated as a
function from an explicit package-subtree state and an environment of
external operation outcomes (git, network) to an outcome record holding the
raised-or-returned result, the emitted status lines, the filesystem effects,
and the final state.
-/

/-- Identity-relevant fields of a package descriptor, exactly the dict
built as new_info in package_manager.process_package (the name is used as
the cache key and directory name, not as a hashed field; options are
deliberately omitted by the source). -/
structure Info where
  version : String
  git_tag : String
  github_repository : String
  git_repository : String
  url : String
deriving DecidableEq

/-- Command-line arguments relevant to process_package (argparse gives
None for an unset string option, modelled as none). -/
structure Args where
  name : String
  version : Option String
  git_tag : Option String
  github_repository : Option String
  git_repository : Option String
  url : Option String
  keep_updated : Bool
  options : List String
deriving DecidableEq

/-- Python truthiness of an optional string: None and the empty string are
falsy. -/
def truthy : Option String → Bool
  | none => false
  | some s => !(s == "")

/-- Python expression x or the empty string, for x an optional string. -/
def orEmpty : Option String → String
  | none => ""
  | some s => s

/-- The new_info dict built in process_package lines 367-374: every field
defaulted to the empty string, options excluded. -/
def newInfo (a : Args) : Info :=
  { version := orEmpty a.version
    git_tag := orEmpty a.git_tag
    github_repository := orEmpty a.github_repository
    git_repository := orEmpty a.git_repository
    url := orEmpty a.url }

/-- One character of the json.dumps string escaper (ensure_ascii default):
quote, backslash and the usual control shorthands get a backslash escape,
every other character outside the printable ASCII range 0x20-0x7e gets a
four-digit unicode escape (astral characters would use surrogate pairs in
CPython; the safety predicate used by the theorems excludes them). -/
def hexDigitChar (n : Nat) : Char :=
  "0123456789abcdef".data.getD n '0'

def hex4 (n : Nat) : List Char :=
  [hexDigitChar ((n >>> 12) % 16), hexDigitChar ((n >>> 8) % 16),
   hexDigitChar ((n >>> 4) % 16), hexDigitChar (n % 16)]

def jsonEscapeChar (c : Char) : List Char :=
  if c = '\"' then ['\\', '\"']
  else if c = '\\' then ['\\', '\\']
  else if c = '\n' then ['\\', 'n']
  else if c = '\t' then ['\\', 't']
  else if c = '\r' then ['\\', 'r']
  else if c.toNat = 8 then ['\\', 'b']
  else if c.toNat = 12 then ['\\', 'f']
  else if c.toNat < 32 || c.toNat > 126 then '\\' :: 'u' :: hex4 c.toNat
  else [c]

def escChars (s : String) : List Char :=
  (s.data.map jsonEscapeChar).flatten

/-- A string whose json.dumps image is itself: printable ASCII with no
quote and no backslash. -/
def jsonSafe (s : String) : Bool :=
  s.data.all (fun c => 32 ≤ c.toNat && c.toNat ≤ 126 && c != '\"' && c != '\\')

def infoSafe (i : Info) : Bool :=
  jsonSafe i.version && jsonSafe i.git_tag && jsonSafe i.github_repository &&
  jsonSafe i.git_repository && jsonSafe i.url

/-- json.dumps(new_info, sort_keys=True): the five keys in sorted order
git_repository, git_tag, github_repository, url, version, with the default
separators. Checked against CPython on concrete inputs. -/
def serializeChars (i : Info) : List Char :=
  "\x7b\"git_repository\": \"".data ++ escChars i.git_repository ++
  ('\"' :: ", \"git_tag\": \"".data) ++ escChars i.git_tag ++
  ('\"' :: ", \"github_repository\": \"".data) ++ escChars i.github_repository ++
  ('\"' :: ", \"url\": \"".data) ++ escChars i.url ++
  ('\"' :: ", \"version\": \"".data) ++ escChars i.version ++
  ('\"' :: "\x7d".data)

def serializeInfo (i : Info) : String :=
  String.mk (serializeChars i)

/-- UTF-8 bytes of the serialized descriptor; the escaped serialization is
pure ASCII for safe fields, where code points and bytes coincide. -/
def strBytes (s : String) : List Nat :=
  s.data.map Char.toNat

/-! SHA-256 over lists of byte values, as called via hashlib.sha256.
Machine words are Nat values kept below 2^32 by explicit reduction. -/

def add32 (a b : Nat) : Nat := (a + b) % 4294967296

def rotr32 (n x : Nat) : Nat :=
  ((x >>> n) ||| ((x <<< (32 - n)) % 4294967296)) % 4294967296

def bsig0 (x : Nat) : Nat := rotr32 2 x ^^^ rotr32 13 x ^^^ rotr32 22 x
def bsig1 (x : Nat) : Nat := rotr32 6 x ^^^ rotr32 11 x ^^^ rotr32 25 x
def ssig0 (x : Nat) : Nat := rotr32 7 x ^^^ rotr32 18 x ^^^ (x >>> 3)
def ssig1 (x : Nat) : Nat := rotr32 17 x ^^^ rotr32 19 x ^^^ (x >>> 10)

def chf (e f g : Nat) : Nat := (e &&& f) ^^^ ((e ^^^ 4294967295) &&& g)
def majf (a b c : Nat) : Nat := (a &&& b) ^^^ (a &&& c) ^^^ (b &&& c)

def K64 : List Nat :=
  [1116352408, 1899447441, 3049323471,
   3921009573, 961987163, 1508970993,
   2453635748, 2870763221, 3624381080,
   310598401, 607225278, 1426881987,
   1925078388, 2162078206, 2614888103,
   3248222580, 3835390401, 4022224774,
   264347078, 604807628, 770255983,
   1249150122, 1555081692, 1996064986,
   2554220882, 2821834349, 2952996808,
   3210313671, 3336571891, 3584528711,
   113926993, 338241895, 666307205,
   773529912, 1294757372, 1396182291,
   1695183700, 1986661051, 2177026350,
   2456956037, 2730485921, 2820302411,
   3259730800, 3345764771, 3516065817,
   3600352804, 4094571909, 275423344,
   430227734, 506948616, 659060556,
   883997877, 958139571, 1322822218,
   1537002063, 1747873779, 1955562222,
   2024104815, 2227730452, 2361852424,
   2428436474, 2756734187, 3204031479,
   3329325298]

def H08 : List Nat :=
  [1779033703, 3144134277, 1013904242,
   2773480762, 1359893119, 2600822924,
   528734635, 1541459225]

structure Hs where
  a : Nat
  b : Nat
  c : Nat
  d : Nat
  e : Nat
  f : Nat
  g : Nat
  h : Nat

def compressStep (s : Hs) (kw : Nat × Nat) : Hs :=
  let t1 := add32 s.h (add32 (bsig1 s.e) (add32 (chf s.e s.f s.g) (add32 kw.1 kw.2)))
  let t2 := add32 (bsig0 s.a) (majf s.a s.b s.c)
  ⟨add32 t1 t2, s.a, s.b, s.c, add32 s.d t1, s.e, s.f, s.g⟩

def extendSchedule (w : List Nat) : List Nat :=
  (List.range 48).foldl (fun acc _ =>
    let n := acc.length
    acc ++ [add32 (acc.getD (n - 16) 0)
             (add32 (ssig0 (acc.getD (n - 15) 0))
               (add32 (acc.getD (n - 7) 0) (ssig1 (acc.getD (n - 2) 0))))]) w

def processChunk (hs : List Nat) (block : List Nat) : List Nat :=
  let w := extendSchedule block
  let init : Hs :=
    ⟨hs.getD 0 0, hs.getD 1 0, hs.getD 2 0, hs.getD 3 0,
     hs.getD 4 0, hs.getD 5 0, hs.getD 6 0, hs.getD 7 0⟩
  let fin := (K64.zip w).foldl compressStep init
  [add32 (hs.getD 0 0) fin.a, add32 (hs.getD 1 0) fin.b,
   add32 (hs.getD 2 0) fin.c, add32 (hs.getD 3 0) fin.d,
   add32 (hs.getD 4 0) fin.e, add32 (hs.getD 5 0) fin.f,
   add32 (hs.getD 6 0) fin.g, add32 (hs.getD 7 0) fin.h]

def be64 (n : Nat) : List Nat :=
  (List.range 8).map (fun i => (n >>> (8 * (7 - i))) % 256)

def padMessage (msg : List Nat) : List Nat :=
  msg ++ 0x80 :: List.replicate ((119 - msg.length % 64) % 64) 0 ++ be64 (msg.length * 8)

def bytesToWords : List Nat → List Nat
  | b0 :: b1 :: b2 :: b3 :: rest =>
    (((b0 * 256 + b1) * 256 + b2) * 256 + b3) :: bytesToWords rest
  | _ => []

/-- Fold processChunk over the 16-word blocks; fuel-based recursion keeps
the definition kernel-computable, and words.length steps always suffice. -/
def sha256Blocks (fuel : Nat) (hs : List Nat) (ws : List Nat) : List Nat :=
  match fuel with
  | 0 => hs
  | fuel + 1 =>
    match ws with
    | [] => hs
    | _ => sha256Blocks fuel (processChunk hs (ws.take 16)) (ws.drop 16)

def sha256Words (msg : List Nat) : List Nat :=
  let ws := bytesToWords (padMessage msg)
  sha256Blocks ws.length H08 ws

def toHex8 (w : Nat) : List Char :=
  (List.range 8).map (fun i => hexDigitChar ((w >>> (4 * (7 - i))) % 16))

def sha256Hex (msg : List Nat) : String :=
  String.mk ((sha256Words msg).map toHex8).flatten

/-- package_cache.get_package_hash: sha256 of the canonical serialization,
hex digest truncated to 16 characters. -/
def getPackageHash (i : Info) : String :=
  String.mk (((sha256Words (strBytes (serializeInfo i))).map toHex8).flatten.take 16)

/-! Archive extraction (package_manager.download_archive). Extraction is
modelled at the level of entry path lists: the value is the list of
relative paths created under the destination directory. -/

/-- str.split on the path separator, keeping empty pieces, as CPython
does inside os.path.commonpath. Defined by structural recursion on the
character list so that it evaluates inside the kernel. -/
def splitSlash : List Char → List Char → List String
  | [], acc => [String.mk acc.reverse]
  | c :: cs, acc =>
    if c = '/' then String.mk acc.reverse :: splitSlash cs []
    else splitSlash cs (c :: acc)

/-- m.startswith(cp) on code points. -/
def listStarts : List Char → List Char → Bool
  | _, [] => true
  | [], _ :: _ => false
  | a :: as, b :: bs => a == b && listStarts as bs

/-- Contiguous occurrence of a needle in a haystack; used to state which
substrings a raised message carries. -/
def listContains : List Char → List Char → Bool
  | hay, needle =>
    listStarts hay needle ||
      match hay with
      | [] => false
      | _ :: t => listContains t needle

def strStarts (m cp : String) : Bool := listStarts m.data cp.data

def strHasSlash (s : String) : Bool := s.data.contains '/'

def strLen (s : String) : Nat := s.data.length

def strDropChars (m : String) (n : Nat) : String := String.mk (m.data.drop n)

/-- Path components as computed inside os.path.commonpath for relative
posix paths: split on the separator, dropping empty components and
single-dot components. -/
def pathComponents (p : String) : List String :=
  (splitSlash p.data []).filter (fun c => c != "" && c != ".")

/-- Longest common prefix of two component lists. os.path.commonpath takes
the componentwise common prefix of the lexicographic min and max of all
component lists, which equals this fold of pairwise common prefixes. -/
def lcp : List String → List String → List String
  | a :: as, b :: bs => if a = b then a :: lcp as bs else []
  | _, _ => []

def joinComps : List String → String
  | [] => ""
  | [c] => c
  | c :: cs => c ++ "/" ++ joinComps cs

def commonpath (ps : List String) : String :=
  match ps.map pathComponents with
  | [] => ""
  | c :: cs => joinComps (cs.foldl lcp c)

/-- Zip branch of download_archive lines 312-333: when the common prefix
of all member names is nonempty and contains a separator, each member that
starts with the prefix is written at the member name with the prefix and
one following character removed; otherwise extractall writes the members
verbatim. -/
def extractZip (members : List String) : List String :=
  let cp := if members.isEmpty then "" else commonpath members
  if cp != "" && strHasSlash cp then
    members.filterMap (fun m =>
      if strStarts m cp then some (strDropChars m (strLen cp + 1)) else none)
  else
    members

/-- Tar branch of download_archive lines 337-353: same prefix rule, and a
member whose stripped name is empty is skipped. -/
def extractTar (members : List String) : List String :=
  let cp := if members.isEmpty then "" else commonpath members
  if cp != "" && strHasSlash cp then
    members.filterMap (fun m =>
      if strStarts m cp then
        let n := strDropChars m (strLen cp + 1)
        if n != "" then some n else none
      else none)
  else
    members

/-! download_helper.download_with_retry. The network is an oracle giving
the outcome of each attempt: a successful read of the full body, a failure
before the destination file is opened (connection error), or a failure in
mid-transfer after part of the body has been written. The destination file
is modelled by its byte content; opening for writing with mode wb
truncates, so each attempt that opens the file replaces its content. -/

inductive Att
  | ok (data : List Nat)
  | failNoOpen (err : String)
  | failMid (err : String) (partialData : List Nat)
deriving DecidableEq

inductive DlOutcome
  | returned (b : Bool)
  | raised (msg : String)
deriving DecidableEq

structure DlResult where
  outcome : DlOutcome
  file : Option (List Nat)
  sleeps : List Nat
deriving DecidableEq

def attFails : Att → Bool
  | .ok _ => false
  | _ => true

def attErr : Att → String
  | .ok _ => ""
  | .failNoOpen e => e
  | .failMid e _ => e

/-- The message of the exception raised after the final failed attempt,
line 113 of the source: it names the attempt count and the caught cause. -/
def dlFailMsg (retries : Nat) (cause : String) : String :=
  "Failed to download after " ++ toString retries ++ " attempts: " ++ cause

/-- The retry loop body: i is the current value of the loop variable
attempt, fuel is the number of remaining iterations of range(p_retries),
so fuel = 1 means attempt == p_retries - 1 and a failure raises instead of
sleeping 2 ** attempt seconds and retrying. -/
def downloadGo (outcomes : Nat → Att) (total : Nat) : Nat → Nat → Option (List Nat) → DlResult
  | _, 0, file => ⟨.returned false, file, []⟩
  | i, fuel + 1, file =>
    match outcomes i with
    | .ok d => ⟨.returned true, some d, []⟩
    | .failNoOpen e =>
      if fuel = 0 then ⟨.raised (dlFailMsg total e), file, []⟩
      else
        let r := downloadGo outcomes total (i + 1) fuel file
        ⟨r.outcome, r.file, 2 ^ i :: r.sleeps⟩
    | .failMid e d =>
      if fuel = 0 then ⟨.raised (dlFailMsg total e), some d, []⟩
      else
        let r := downloadGo outcomes total (i + 1) fuel (some d)
        ⟨r.outcome, r.file, 2 ^ i :: r.sleeps⟩

/-- download_helper.download_with_retry(url, dest, retries). The url is
carried as in the source signature; note that it does not flow into the
raised message. -/
def downloadWithRetry (url : String) (outcomes : Nat → Att) (retries : Nat)
    (file0 : Option (List Nat)) : DlResult :=
  downloadGo outcomes retries 0 retries file0

/-- download_archive seen through the life of the temporary artifact:
download_with_retry runs before the try block, so a raised download error
propagates without reaching the finally clause; once the download call has
returned, extraction runs inside try and the finally clause unlinks the
artifact on success and on failure alike. Returns the raised message (or
none) and the final artifact content. -/
def downloadArchive (url : String) (outcomes : Nat → Att) (extractOk : Bool)
    (temp0 : Option (List Nat)) : Option String × Option (List Nat) :=
  let r := downloadWithRetry url outcomes 3 temp0
  match r.outcome with
  | .raised msg => (some msg, r.file)
  | .returned _ =>
    if extractOk then (none, none) else (some "archive extraction failed", none)

/-! git_helper.update_full. Each of the three subprocess calls either
exits zero, exits nonzero, or hits its timeout. The fetch and reset calls
use check=True, so a nonzero exit raises CalledProcessError; the submodule
call uses check=False, so only its timeout raises. Both exception kinds
are caught by the surrounding handler, which returns False; hence the
function always returns a boolean. -/

inductive GitRes
  | ok
  | exitNonzero
  | timeout
deriving DecidableEq

def updateFull (fetchRes resetRes subRes : GitRes) : Bool :=
  match fetchRes with
  | .ok =>
    match resetRes with
    | .ok =>
      match subRes with
      | .timeout => false
      | _ => true
    | _ => false
  | _ => false

/-! package_cache and package_manager.process_package. The state of the
package subtree <cache_dir>/<name> is the existence of the package
directory plus the state of the persisted record file CACHE/.cache; the
record file can be missing, unreadable junk, or a parseable record. A
fresh invocation is modelled, so the in-memory memoization of the cache
store is empty and the record is read from the file. -/

inductive CacheRecordState
  | absent
  | corrupt
  | record (info : Info)
deriving DecidableEq

structure PkgState where
  dirExists : Bool
  cacheRecord : CacheRecordState
deriving DecidableEq

inductive Status
  | refetch (name : String)
  | update (name : String)
  | cached (name : String)
  | exist (path : String)
deriving DecidableEq

inductive Effect
  | mkdirCacheRoot
  | mkdirPkgParent
  | removePkgTree
  | gitClone (repo : String) (tag : Option String)
  | download (url : String)
  | mkdirCacheSubdir
  | writeRecord (info : Info)
deriving DecidableEq

/-- Result of package_cache.is_cache_valid: either a boolean, or a raised
exception when the record file exists but json.load fails on it (the
source wraps the read in no handler, lines 140-150). -/
inductive ValidRes
  | ok (b : Bool)
  | raise (msg : String)
deriving DecidableEq

def isCacheValid (info : Info) (st : PkgState) : ValidRes :=
  if !st.dirExists then .ok false
  else
    match st.cacheRecord with
    | .absent => .ok false
    | .corrupt => .raise "json.decoder.JSONDecodeError"
    | .record cached => .ok (getPackageHash cached == getPackageHash info)

/-- Outcome of external operations in one invocation: whether
git_helper.update_full reports success, whether git clone exits zero, and
how the archive download and extraction go. -/
inductive ArchiveRes
  | ok
  | failDownload
  | failExtract (dirCreated : Bool)
deriving DecidableEq

structure Env where
  updateOk : Bool
  cloneOk : Bool
  archiveRes : ArchiveRes
deriving DecidableEq

structure Outcome where
  result : Option String
  statuses : List Status
  effects : List Effect
  final : PkgState
deriving DecidableEq

def pkgPath (cacheDir name : String) : String :=
  cacheDir ++ "/" ++ name ++ "/" ++ name

def recordAbsent : CacheRecordState → Bool
  | .absent => true
  | _ => false

/-- package_manager.clear_package: removes the whole per-package subtree
(package directory and CACHE subdirectory) when the parent exists. -/
def clearPackage (st : PkgState) : PkgState × List Effect :=
  if st.dirExists || !recordAbsent st.cacheRecord then
    (⟨false, .absent⟩, [.removePkgTree])
  else
    (⟨false, .absent⟩, [])

/-- Lines 404-425: source selection by priority, clone or archive
download, then save_cached_info; raises the configuration error when no
source is configured. Entered with the package directory absent. -/
def fetchPhase (a : Args) (info : Info) (st : PkgState) (env : Env)
    (sts : List Status) (eff : List Effect) : Outcome :=
  let gitRepo : Option String :=
    if truthy a.github_repository then
      some ("https://github.com/" ++ orEmpty a.github_repository ++ ".git")
    else a.git_repository
  if truthy gitRepo then
    let tag : Option String :=
      if truthy a.git_tag then a.git_tag
      else if truthy a.version then some ("v" ++ orEmpty a.version) else none
    let eff := eff ++ [.mkdirPkgParent, .gitClone (orEmpty gitRepo) tag]
    if env.cloneOk then
      { result := none, statuses := sts,
        effects := eff ++ [.mkdirCacheSubdir, .writeRecord info],
        final := ⟨true, .record info⟩ }
    else
      { result := some ("Failed to clone " ++ a.name ++ " from " ++ orEmpty gitRepo),
        statuses := sts, effects := eff, final := st }
  else if truthy a.url then
    let eff := eff ++ [.mkdirPkgParent, .download (orEmpty a.url)]
    match env.archiveRes with
    | .ok =>
      { result := none, statuses := sts,
        effects := eff ++ [.mkdirCacheSubdir, .writeRecord info],
        final := ⟨true, .record info⟩ }
    | .failDownload =>
      { result := some (dlFailMsg 3 "download error"), statuses := sts,
        effects := eff, final := st }
    | .failExtract dirCreated =>
      { result := some "archive extraction failed", statuses := sts,
        effects := eff, final := { st with dirExists := dirCreated } }
  else
    { result := some ("No source specified for " ++ a.name), statuses := sts,
      effects := eff, final := st }

/-- package_manager.process_package lines 360-425 for one invocation. -/
def processPackage (cacheDir : String) (a : Args) (st : PkgState) (env : Env) : Outcome :=
  let info := newInfo a
  let path := pkgPath cacheDir a.name
  match (if st.dirExists then isCacheValid info st else .ok true) with
  | .raise msg => { result := some msg, statuses := [], effects := [], final := st }
  | .ok valid =>
    let doRefetch := st.dirExists && !valid
    let st1 := if doRefetch then (clearPackage st).1 else st
    let sts1 := if doRefetch then [Status.refetch a.name] else []
    let eff1 := if doRefetch then (clearPackage st).2 else []
    if st1.dirExists then
      if a.keep_updated && (truthy a.git_repository || truthy a.github_repository) then
        if env.updateOk then
          { result := none, statuses := sts1 ++ [.update a.name, .exist path],
            effects := eff1, final := st1 }
        else
          let cleared := clearPackage st1
          fetchPhase a info cleared.1 env (sts1 ++ [.update a.name]) (eff1 ++ cleared.2)
      else
        { result := none, statuses := sts1 ++ [.cached a.name, .exist path],
          effects := eff1, final := st1 }
    else
      fetchPhase a info st1 env sts1 eff1

/-- The constructor of package_manager creates the cache root directory
with parents and exist_ok, then main calls process_package; the mkdir is
a filesystem effect exactly when the root does not already exist. -/
def managerRun (cacheRootExists : Bool) (cacheDir : String) (a : Args)
    (st : PkgState) (env : Env) : Outcome :=
  let o := processPackage cacheDir a st env
  { o with effects := (if cacheRootExists then [] else [Effect.mkdirCacheRoot]) ++ o.effects }

/-! Concrete sample inputs used by the closed counterexample and witness
theorems. -/

def envAllOk : Env := ⟨true, true, .ok⟩

def envUpdateCloneFail : Env := ⟨false, false, .ok⟩

def gitArgs : Args :=
  { name := "pkg", version := none, git_tag := none, github_repository := none,
    git_repository := some "https://example.org/pkg.git", url := none,
    keep_updated := false, options := [] }

def noSrcArgs : Args :=
  { name := "pkg", version := none, git_tag := none, github_repository := none,
    git_repository := none, url := none, keep_updated := false, options := [] }

def upArgs : Args :=
  { name := "pkg", version := none, git_tag := none, github_repository := none,
    git_repository := some "https://example.org/pkg.git", url := none,
    keep_updated := true, options := [] }

def verArgs : Args :=
  { name := "pkg", version := some "2.0", git_tag := none, github_repository := none,
    git_repository := some "https://example.org/pkg.git", url := none,
    keep_updated := false, options := [] }

def noVerArgs : Args := { verArgs with version := none }

def optArgs : Args :=
  { name := "pkg", version := some "1.0", git_tag := none, github_repository := none,
    git_repository := some "https://example.org/pkg.git", url := none,
    keep_updated := false, options := [] }

def isLeading (a b : List String) : Prop := ∃ t, b = a ++ t

def d1Args : Args :=
  { name := "alpha", version := some "1.0", git_tag := none, github_repository := none,
    git_repository := some "https://example.org/lib.git", url := none,
    keep_updated := false, options := [] }

def d2Args : Args := { d1Args with name := "beta" }

def d3Args : Args := { d1Args with version := some "2.0" }

theorem truthy_github_url (x : String) :
    truthy (some ("https://github.com/" ++ x ++ ".git")) = true := by
  simp only [truthy, Bool.not_eq_true']
  rw [beq_eq_false_iff_ne]
  intro h
  have h2 := congrArg String.length h
  rw [String.length_append, String.length_append] at h2
  have e1 : ("https://github.com/").length = 19 := rfl
  have e2 : (".git").length = 4 := rfl
  have e3 : ("" : String).length = 0 := rfl
  omega

theorem fetchPhase_statuses (a : Args) (info : Info) (st : PkgState) (env : Env)
    (sts : List Status) (eff : List Effect) :
    (fetchPhase a info st env sts eff).statuses = sts := by
  simp only [fetchPhase]
  (repeat' split) <;> rfl

theorem fetchPhase_clone_mem (a : Args) (info : Info) (st : PkgState) (env : Env)
    (sts : List Status) (eff : List Effect)
    (hsrc : (truthy a.github_repository || truthy a.git_repository) = true) :
    ∃ r, Effect.gitClone r
        (if truthy a.git_tag then a.git_tag
         else if truthy a.version then some ("v" ++ orEmpty a.version) else none)
      ∈ (fetchPhase a info st env sts eff).effects := by
  simp only [fetchPhase]
  by_cases hg : truthy a.github_repository = true
  · refine ⟨"https://github.com/" ++ orEmpty a.github_repository ++ ".git", ?_⟩
    rw [if_pos hg, if_pos (truthy_github_url (orEmpty a.github_repository))]
    split <;> simp [orEmpty]
  · have hr : truthy a.git_repository = true := by
      rcases Bool.or_eq_true_iff.mp hsrc with h | h
      · exact absurd h hg
      · exact h
    refine ⟨orEmpty a.git_repository, ?_⟩
    rw [if_neg hg, if_pos hr]
    split <;> simp [orEmpty]

theorem fetchPhase_cases (a : Args) (info : Info) (st : PkgState) (env : Env)
    (sts : List Status) (eff : List Effect) :
    ((fetchPhase a info st env sts eff).result = none ∧
      Effect.writeRecord info ∈ (fetchPhase a info st env sts eff).effects ∧
      (fetchPhase a info st env sts eff).final = ⟨true, .record info⟩) ∨
    ((fetchPhase a info st env sts eff).result.isSome = true ∧
      (∀ i, Effect.writeRecord i ∈ (fetchPhase a info st env sts eff).effects →
        Effect.writeRecord i ∈ eff) ∧
      (fetchPhase a info st env sts eff).final.cacheRecord = st.cacheRecord) := by
  simp only [fetchPhase]
  (repeat' split) <;> (try (left; simp; done)) <;> (right; simp [Option.isSome])

/-- C10: implicit tag defaulting. On a fresh fetch from a git source, when
the descriptor carries no usable git_tag, the clone is invoked pinned to
the tag v concatenated with the version when a nonempty version is given,
and with no tag when neither git_tag nor version is usable. -/
theorem c10_tag_defaulting (cacheDir : String) (a : Args) (st : PkgState) (env : Env)
    (hdir : st.dirExists = false)
    (hsrc : (truthy a.github_repository || truthy a.git_repository) = true)
    (htag : truthy a.git_tag = false) :
    (∀ v, a.version = some v → v ≠ "" →
      ∃ r, Effect.gitClone r (some ("v" ++ v)) ∈ (processPackage cacheDir a st env).effects) ∧
    (truthy a.version = false →
      ∃ r, Effect.gitClone r none ∈ (processPackage cacheDir a st env).effects) := by
  have hred : processPackage cacheDir a st env = fetchPhase a (newInfo a) st env [] [] := by
    simp [processPackage, hdir]
  constructor
  · intro v hv hvne
    have htv : truthy a.version = true := by simp [hv, truthy, hvne]
    have hm := fetchPhase_clone_mem a (newInfo a) st env [] [] hsrc
    rw [htag] at hm
    simp only [Bool.false_eq_true, if_false, htv, if_pos] at hm
    rw [hred]
    simpa [hv, orEmpty] using hm
  · intro hvf
    have hm := fetchPhase_clone_mem a (newInfo a) st env [] [] hsrc
    rw [htag] at hm
    simp only [Bool.false_eq_true, if_false, hvf] at hm
    rw [hred]
    exact hm

/-- C3: options noninterference. Two invocations whose descriptors differ
only in the build-time options produce identical outcomes (result, status
lines, filesystem effects and final state), because options are excluded
from new_info; in particular, against a cache record written from the same
identity fields, changing only options never emits the REFETCH status. -/
theorem c3_options_noninterference (cacheDir : String) (a : Args) (opts : List String)
    (st : PkgState) (env : Env) :
    processPackage cacheDir { a with options := opts } st env =
      processPackage cacheDir a st env ∧
    (st.dirExists = true → st.cacheRecord = .record (newInfo a) →
      Status.refetch a.name ∉
        (processPackage cacheDir { a with options := opts } st env).statuses) := by
  have heq : processPackage cacheDir { a with options := opts } st env =
      processPackage cacheDir a st env := rfl
  refine ⟨heq, ?_⟩
  intro hd hr
  rw [heq]
  have hvalid : isCacheValid (newInfo a) st = .ok true := by
    simp [isCacheValid, hd, hr]
  by_cases hk : (a.keep_updated && (truthy a.git_repository || truthy a.github_repository)) = true
  · by_cases hu : env.updateOk = true
    · simp [processPackage, hvalid, hd, hk, hu]
    · simp [processPackage, hvalid, hd, hk, hu, fetchPhase_statuses]
  · simp [processPackage, hvalid, hd, hk]

theorem isCacheValid_absent (i : Info) (s : PkgState) (h : s.cacheRecord = .absent) :
    isCacheValid i s = .ok false := by
  simp only [isCacheValid, h]
  split <;> rfl

theorem isCacheValid_self (i : Info) :
    isCacheValid i ⟨true, .record i⟩ = .ok true := by
  simp [isCacheValid]

theorem processPackage_eq_fresh (cacheDir : String) (a : Args) (st : PkgState) (env : Env)
    (hd : st.dirExists = false) :
    processPackage cacheDir a st env = fetchPhase a (newInfo a) st env [] [] := by
  simp [processPackage, hd]

theorem processPackage_eq_corrupt (cacheDir : String) (a : Args) (st : PkgState) (env : Env)
    (hd : st.dirExists = true) (hc : st.cacheRecord = .corrupt) :
    processPackage cacheDir a st env =
      { result := some "json.decoder.JSONDecodeError", statuses := [], effects := [],
        final := st } := by
  simp [processPackage, hd, isCacheValid, hc]

theorem processPackage_eq_refetch (cacheDir : String) (a : Args) (st : PkgState) (env : Env)
    (hd : st.dirExists = true) (hiv : isCacheValid (newInfo a) st = .ok false) :
    processPackage cacheDir a st env =
      fetchPhase a (newInfo a) ⟨false, .absent⟩ env [.refetch a.name] [.removePkgTree] := by
  simp [processPackage, hd, hiv, clearPackage]

theorem processPackage_eq_cached (cacheDir : String) (a : Args) (st : PkgState) (env : Env)
    (hd : st.dirExists = true) (hiv : isCacheValid (newInfo a) st = .ok true)
    (hk : (a.keep_updated && (truthy a.git_repository || truthy a.github_repository)) = false) :
    processPackage cacheDir a st env =
      { result := none, statuses := [.cached a.name, .exist (pkgPath cacheDir a.name)],
        effects := [], final := st } := by
  simp [processPackage, hd, hiv, hk]

theorem processPackage_eq_updateOk (cacheDir : String) (a : Args) (st : PkgState) (env : Env)
    (hd : st.dirExists = true) (hiv : isCacheValid (newInfo a) st = .ok true)
    (hk : (a.keep_updated && (truthy a.git_repository || truthy a.github_repository)) = true)
    (hu : env.updateOk = true) :
    processPackage cacheDir a st env =
      { result := none, statuses := [.update a.name, .exist (pkgPath cacheDir a.name)],
        effects := [], final := st } := by
  simp [processPackage, hd, hiv, hk, hu]

theorem processPackage_eq_updateFail (cacheDir : String) (a : Args) (st : PkgState) (env : Env)
    (hd : st.dirExists = true) (hiv : isCacheValid (newInfo a) st = .ok true)
    (hk : (a.keep_updated && (truthy a.git_repository || truthy a.github_repository)) = true)
    (hu : env.updateOk = false) :
    processPackage cacheDir a st env =
      fetchPhase a (newInfo a) ⟨false, .absent⟩ env [.update a.name] [.removePkgTree] := by
  simp [processPackage, hd, hiv, hk, hu, clearPackage]

theorem fetchPhase_atomic (a : Args) (st : PkgState) (env : Env)
    (sts : List Status) (eff : List Effect)
    (hrec : ∀ i, Effect.writeRecord i ∉ eff) (hst : st.cacheRecord = .absent) :
    (∀ i, Effect.writeRecord i ∈ (fetchPhase a (newInfo a) st env sts eff).effects →
      (fetchPhase a (newInfo a) st env sts eff).result = none) ∧
    ((fetchPhase a (newInfo a) st env sts eff).result.isSome = true →
      (∀ i, Effect.writeRecord i ∉ (fetchPhase a (newInfo a) st env sts eff).effects) ∧
      isCacheValid (newInfo a) (fetchPhase a (newInfo a) st env sts eff).final = .ok false) ∧
    ((fetchPhase a (newInfo a) st env sts eff).result = none →
      Effect.writeRecord (newInfo a) ∈ (fetchPhase a (newInfo a) st env sts eff).effects ∧
      isCacheValid (newInfo a) (fetchPhase a (newInfo a) st env sts eff).final = .ok true) := by
  rcases fetchPhase_cases a (newInfo a) st env sts eff with ⟨h1, h2, h3⟩ | ⟨h1, h2, h3⟩
  · refine ⟨fun i _ => h1, ?_, fun _ => ⟨h2, ?_⟩⟩
    · intro hs
      rw [h1] at hs
      simp at hs
    · rw [h3]
      exact isCacheValid_self _
  · refine ⟨?_, ?_, ?_⟩
    · intro i hm
      exact absurd (h2 i hm) (hrec i)
    · intro _
      exact ⟨fun i hm => absurd (h2 i hm) (hrec i), isCacheValid_absent _ _ (h3.trans hst)⟩
    · intro hn
      rw [hn] at h1
      simp at h1

/-- C6: fetch-failure atomicity, under the lifecycle invariant that a
cache record only exists together with its package directory. A cache
record is written only on runs that return successfully; on a run whose
acquisition step (git clone or archive download) fails, the result is a
raised error, no record is written, and the final state is cache-invalid
for the next run. When keep-updated is requested and the update fails, the
run ends either successfully refetched with a fresh record and a valid
cache, or with a raised error, no record, and an invalid cache - never a
stale directory paired with a stale record. -/
theorem c6_fetch_failure_atomicity (cacheDir : String) (a : Args) (st : PkgState) (env : Env)
    (hwf : st.dirExists = false → st.cacheRecord = .absent) :
    (∀ i, Effect.writeRecord i ∈ (processPackage cacheDir a st env).effects →
      (processPackage cacheDir a st env).result = none) ∧
    ((processPackage cacheDir a st env).result.isSome = true →
      ((∃ r t, Effect.gitClone r t ∈ (processPackage cacheDir a st env).effects) ∨
        (∃ u, Effect.download u ∈ (processPackage cacheDir a st env).effects)) →
      (∀ i, Effect.writeRecord i ∉ (processPackage cacheDir a st env).effects) ∧
      isCacheValid (newInfo a) (processPackage cacheDir a st env).final = .ok false) ∧
    (env.updateOk = false →
      Status.update a.name ∈ (processPackage cacheDir a st env).statuses →
      ((processPackage cacheDir a st env).result = none ∧
        Effect.writeRecord (newInfo a) ∈ (processPackage cacheDir a st env).effects ∧
        isCacheValid (newInfo a) (processPackage cacheDir a st env).final = .ok true) ∨
      ((processPackage cacheDir a st env).result.isSome = true ∧
        (∀ i, Effect.writeRecord i ∉ (processPackage cacheDir a st env).effects) ∧
        isCacheValid (newInfo a) (processPackage cacheDir a st env).final = .ok false)) := by
  by_cases hd : st.dirExists = true
  · cases hrec : st.cacheRecord with
    | corrupt =>
      rw [processPackage_eq_corrupt cacheDir a st env hd hrec]
      refine ⟨?_, ?_, ?_⟩ <;> simp
    | absent =>
      have hiv := isCacheValid_absent (newInfo a) st hrec
      rw [processPackage_eq_refetch cacheDir a st env hd hiv]
      have hfa := fetchPhase_atomic a ⟨false, .absent⟩ env [.refetch a.name] [.removePkgTree]
        (by simp) rfl
      refine ⟨hfa.1, fun hs _ => hfa.2.1 hs, ?_⟩
      intro _ hmem
      rw [fetchPhase_statuses] at hmem
      simp at hmem
    | record c =>
      by_cases hb : (getPackageHash c == getPackageHash (newInfo a)) = true
      · have hiv : isCacheValid (newInfo a) st = .ok true := by
          simp [isCacheValid, hd, hrec, hb]
        by_cases hk :
            (a.keep_updated && (truthy a.git_repository || truthy a.github_repository)) = true
        · by_cases hu : env.updateOk = true
          · rw [processPackage_eq_updateOk cacheDir a st env hd hiv hk hu]
            refine ⟨?_, ?_, ?_⟩ <;> simp [hu]
          · have hu' : env.updateOk = false := by
              revert hu
              cases env.updateOk <;> simp
            rw [processPackage_eq_updateFail cacheDir a st env hd hiv hk hu']
            have hfa := fetchPhase_atomic a ⟨false, .absent⟩ env [.update a.name] [.removePkgTree]
              (by simp) rfl
            refine ⟨hfa.1, fun hs _ => hfa.2.1 hs, ?_⟩
            intro _ _
            cases hres :
                (fetchPhase a (newInfo a) ⟨false, .absent⟩ env [.update a.name]
                  [.removePkgTree]).result with
            | none =>
              exact Or.inl ⟨rfl, (hfa.2.2 hres).1, (hfa.2.2 hres).2⟩
            | some e =>
              have hs : (fetchPhase a (newInfo a) ⟨false, .absent⟩ env [.update a.name]
                  [.removePkgTree]).result.isSome = true := by
                rw [hres]
                rfl
              exact Or.inr ⟨rfl, (hfa.2.1 hs).1, (hfa.2.1 hs).2⟩
        · have hk' :
              (a.keep_updated && (truthy a.git_repository || truthy a.github_repository)) = false := by
            revert hk
            cases (a.keep_updated && (truthy a.git_repository || truthy a.github_repository)) <;> simp
          rw [processPackage_eq_cached cacheDir a st env hd hiv hk']
          refine ⟨?_, ?_, ?_⟩ <;> simp
      · have hb' : (getPackageHash c == getPackageHash (newInfo a)) = false := by
          revert hb
          cases (getPackageHash c == getPackageHash (newInfo a)) <;> simp
        have hiv : isCacheValid (newInfo a) st = .ok false := by
          simp [isCacheValid, hd, hrec, hb']
        rw [processPackage_eq_refetch cacheDir a st env hd hiv]
        have hfa := fetchPhase_atomic a ⟨false, .absent⟩ env [.refetch a.name] [.removePkgTree]
          (by simp) rfl
        refine ⟨hfa.1, fun hs _ => hfa.2.1 hs, ?_⟩
        intro _ hmem
        rw [fetchPhase_statuses] at hmem
        simp at hmem
  · have hd' : st.dirExists = false := by
      revert hd
      cases st.dirExists <;> simp
    rw [processPackage_eq_fresh cacheDir a st env hd']
    have hfa := fetchPhase_atomic a st env [] [] (by simp) (hwf hd')
    refine ⟨hfa.1, fun hs _ => hfa.2.1 hs, ?_⟩
    intro _ hmem
    rw [fetchPhase_statuses] at hmem
    simp at hmem

theorem fetchPhase_config (a : Args) (info : Info) (st : PkgState) (env : Env)
    (sts : List Status) (eff : List Effect)
    (h1 : truthy a.github_repository = false)
    (h2 : truthy a.git_repository = false)
    (h3 : truthy a.url = false) :
    fetchPhase a info st env sts eff =
      { result := some ("No source specified for " ++ a.name), statuses := sts,
        effects := eff, final := st } := by
  simp [fetchPhase, h1, h2, h3]

/-- C4 amended: a corrupt persisted record is fatal, not tolerated. When
the package directory exists and the record file is unreadable, the
json.load inside is_cache_valid raises and the error propagates out of
process_package: the result is the parse error, no status line (in
particular no REFETCH) is emitted and no filesystem effect happens. Only a
missing directory or a missing record file is treated as cache-invalid. -/
theorem c4_corrupt_record_amended (cacheDir : String) (a : Args) (st : PkgState) (env : Env)
    (hd : st.dirExists = true) (hc : st.cacheRecord = .corrupt) :
    (processPackage cacheDir a st env).result = some "json.decoder.JSONDecodeError" ∧
    (processPackage cacheDir a st env).statuses = [] ∧
    (processPackage cacheDir a st env).effects = [] := by
  rw [processPackage_eq_corrupt cacheDir a st env hd hc]
  exact ⟨rfl, rfl, rfl⟩

/-- C4 counterexample: a concrete run against an existing directory with a
corrupt record ends in a raised parse error with no status emitted - the
corruption is surfaced as fatal and no refetch happens, contradicting the
claim that it is treated as cache-invalid and non-fatal. -/
theorem c4_corrupt_record_counterexample :
    (processPackage "cache" gitArgs ⟨true, .corrupt⟩ envAllOk).result =
      some "json.decoder.JSONDecodeError" ∧
    (processPackage "cache" gitArgs ⟨true, .corrupt⟩ envAllOk).statuses = [] := by
  exact ⟨rfl, rfl⟩

/-- C4 witness: the amended theorem applied at a concrete input. -/
theorem c4_corrupt_record_amended_witness :
    (processPackage "cache2" gitArgs ⟨true, .corrupt⟩ envAllOk).result =
      some "json.decoder.JSONDecodeError" ∧
    (processPackage "cache2" gitArgs ⟨true, .corrupt⟩ envAllOk).statuses = [] ∧
    (processPackage "cache2" gitArgs ⟨true, .corrupt⟩ envAllOk).effects = [] :=
  c4_corrupt_record_amended "cache2" gitArgs ⟨true, .corrupt⟩ envAllOk rfl rfl

/-- C5 amended: the temporary artifact is deleted on every exit of the
extraction phase, success or failure, because the unlink sits in a finally
block around extraction; but the download call runs before that block, so
when download_with_retry raises, the artifact is left in whatever state
the last attempt produced, which can be a partially written file. -/
theorem c5_cleanup_amended (url : String) (outcomes : Nat → Att) (extractOk : Bool)
    (temp0 : Option (List Nat)) :
    (∀ b, (downloadWithRetry url outcomes 3 temp0).outcome = .returned b →
      (downloadArchive url outcomes extractOk temp0).2 = none) ∧
    (∀ msg, (downloadWithRetry url outcomes 3 temp0).outcome = .raised msg →
      (downloadArchive url outcomes extractOk temp0).2 =
        (downloadWithRetry url outcomes 3 temp0).file) := by
  constructor
  · intro b hb
    simp only [downloadArchive, hb]
    cases extractOk <;> rfl
  · intro msg hm
    simp only [downloadArchive, hm]

/-- C5 counterexample: three mid-transfer download failures leave a
partially written artifact on disk while the fetch raises, contradicting
the claim that the artifact is gone on every exit path. -/
theorem c5_cleanup_counterexample :
    (downloadArchive "https://example.org/pkg.tar.gz"
      (fun _ => Att.failMid "timed out" [9]) true none).1 =
      some "Failed to download after 3 attempts: timed out" ∧
    (downloadArchive "https://example.org/pkg.tar.gz"
      (fun _ => Att.failMid "timed out" [9]) true none).2 = some [9] := by
  exact ⟨rfl, rfl⟩

/-- C5 witness: the amended theorem applied at a concrete input with a
successful download and failing extraction. -/
theorem c5_cleanup_amended_witness :
    (downloadArchive "https://example.org/pkg.zip" (fun _ => Att.ok [1, 2]) false none).2 =
      none :=
  (c5_cleanup_amended "https://example.org/pkg.zip" (fun _ => Att.ok [1, 2]) false none).1
    true rfl

/-- C9 amended: with no acquisition source configured and the cache not
valid for the package, the run fails with the configuration error naming
the package, and no acquisition-related filesystem effect happens: no
clone, no download, no package-directory creation, no record write. The
cache root directory is still created by the manager constructor, and a
stale package subtree may be removed first. -/
theorem c9_config_error_amended (rootExists : Bool) (cacheDir : String) (a : Args)
    (st : PkgState) (env : Env)
    (h1 : truthy a.github_repository = false)
    (h2 : truthy a.git_repository = false)
    (h3 : truthy a.url = false)
    (hnc : isCacheValid (newInfo a) st = .ok false) :
    (managerRun rootExists cacheDir a st env).result =
      some ("No source specified for " ++ a.name) ∧
    (∀ r t, Effect.gitClone r t ∉ (managerRun rootExists cacheDir a st env).effects) ∧
    (∀ u, Effect.download u ∉ (managerRun rootExists cacheDir a st env).effects) ∧
    (∀ i, Effect.writeRecord i ∉ (managerRun rootExists cacheDir a st env).effects) ∧
    Effect.mkdirPkgParent ∉ (managerRun rootExists cacheDir a st env).effects ∧
    Effect.mkdirCacheSubdir ∉ (managerRun rootExists cacheDir a st env).effects := by
  by_cases hd : st.dirExists = true
  · simp only [managerRun]
    rw [processPackage_eq_refetch cacheDir a st env hd hnc,
      fetchPhase_config a (newInfo a) _ env _ _ h1 h2 h3]
    cases rootExists <;> simp
  · have hd' : st.dirExists = false := by
      revert hd
      cases st.dirExists <;> simp
    simp only [managerRun]
    rw [processPackage_eq_fresh cacheDir a st env hd',
      fetchPhase_config a (newInfo a) st env [] [] h1 h2 h3]
    cases rootExists <;> simp

/-- C9 counterexample: on a fresh cache root, the invocation with no
sources raises the configuration error but has already created the cache
root directory, contradicting the claim that the error is surfaced without
touching the filesystem. -/
theorem c9_config_error_counterexample :
    (managerRun false "cache" noSrcArgs ⟨false, .absent⟩ envAllOk).result =
      some "No source specified for pkg" ∧
    (managerRun false "cache" noSrcArgs ⟨false, .absent⟩ envAllOk).effects =
      [Effect.mkdirCacheRoot] := by
  exact ⟨rfl, rfl⟩

/-- C9 witness: the amended theorem applied at a concrete input. -/
theorem c9_config_error_amended_witness :
    (managerRun true "cache" noSrcArgs ⟨false, .absent⟩ envAllOk).result =
      some ("No source specified for " ++ "pkg") ∧
    (∀ r t, Effect.gitClone r t ∉
      (managerRun true "cache" noSrcArgs ⟨false, .absent⟩ envAllOk).effects) ∧
    (∀ u, Effect.download u ∉
      (managerRun true "cache" noSrcArgs ⟨false, .absent⟩ envAllOk).effects) ∧
    (∀ i, Effect.writeRecord i ∉
      (managerRun true "cache" noSrcArgs ⟨false, .absent⟩ envAllOk).effects) ∧
    Effect.mkdirPkgParent ∉
      (managerRun true "cache" noSrcArgs ⟨false, .absent⟩ envAllOk).effects ∧
    Effect.mkdirCacheSubdir ∉
      (managerRun true "cache" noSrcArgs ⟨false, .absent⟩ envAllOk).effects :=
  c9_config_error_amended true "cache" noSrcArgs ⟨false, .absent⟩ envAllOk rfl rfl rfl rfl

/-- C6 witness: a concrete run with a valid cache, keep-updated set, a
failing update and a failing clone, instantiating the update-fallback
dichotomy of the theorem. -/
theorem c6_fetch_failure_atomicity_witness :
    ((processPackage "cache" upArgs ⟨true, .record (newInfo upArgs)⟩
        envUpdateCloneFail).result = none ∧
      Effect.writeRecord (newInfo upArgs) ∈
        (processPackage "cache" upArgs ⟨true, .record (newInfo upArgs)⟩
          envUpdateCloneFail).effects ∧
      isCacheValid (newInfo upArgs)
        (processPackage "cache" upArgs ⟨true, .record (newInfo upArgs)⟩
          envUpdateCloneFail).final = .ok true) ∨
    ((processPackage "cache" upArgs ⟨true, .record (newInfo upArgs)⟩
        envUpdateCloneFail).result.isSome = true ∧
      (∀ i, Effect.writeRecord i ∉
        (processPackage "cache" upArgs ⟨true, .record (newInfo upArgs)⟩
          envUpdateCloneFail).effects) ∧
      isCacheValid (newInfo upArgs)
        (processPackage "cache" upArgs ⟨true, .record (newInfo upArgs)⟩
          envUpdateCloneFail).final = .ok false) := by
  have hmem : Status.update upArgs.name ∈
      (processPackage "cache" upArgs ⟨true, .record (newInfo upArgs)⟩
        envUpdateCloneFail).statuses := by
    rw [processPackage_eq_updateFail "cache" upArgs _ envUpdateCloneFail rfl
      (isCacheValid_self (newInfo upArgs)) (by decide) rfl]
    rw [fetchPhase_statuses]
    simp
  exact (c6_fetch_failure_atomicity "cache" upArgs ⟨true, .record (newInfo upArgs)⟩
    envUpdateCloneFail (fun h => nomatch h)).2.2 rfl hmem

/-- C10 witness: the theorem applied at concrete inputs, with version 2.0
cloning tag v2.0 and an unversioned descriptor cloning with no tag. -/
theorem c10_tag_defaulting_witness :
    (∃ r, Effect.gitClone r (some "v2.0") ∈
      (processPackage "cache" verArgs ⟨false, .absent⟩ envAllOk).effects) ∧
    (∃ r, Effect.gitClone r none ∈
      (processPackage "cache" noVerArgs ⟨false, .absent⟩ envAllOk).effects) := by
  constructor
  · exact (c10_tag_defaulting "cache" verArgs ⟨false, .absent⟩ envAllOk rfl (by decide)
      rfl).1 "2.0" rfl (by decide)
  · exact (c10_tag_defaulting "cache" noVerArgs ⟨false, .absent⟩ envAllOk rfl (by decide)
      rfl).2 rfl

/-- C3 witness: the theorem applied at a concrete input with a valid
cache record and changed options. -/
theorem c3_options_noninterference_witness :
    processPackage "cache" { optArgs with options := ["BUILD_TESTS=ON"] }
        ⟨true, .record (newInfo optArgs)⟩ envAllOk =
      processPackage "cache" optArgs ⟨true, .record (newInfo optArgs)⟩ envAllOk ∧
    Status.refetch "pkg" ∉
      (processPackage "cache" { optArgs with options := ["BUILD_TESTS=ON"] }
        ⟨true, .record (newInfo optArgs)⟩ envAllOk).statuses := by
  have h := c3_options_noninterference "cache" optArgs ["BUILD_TESTS=ON"]
    ⟨true, .record (newInfo optArgs)⟩ envAllOk
  exact ⟨h.1, h.2 rfl rfl⟩

theorem downloadGo_step_ok (outcomes : Nat → Att) (total i fuel : Nat)
    (file : Option (List Nat)) (d : List Nat) (ho : outcomes i = .ok d) :
    downloadGo outcomes total i (fuel + 1) file = ⟨.returned true, some d, []⟩ := by
  conv_lhs => rw [downloadGo]
  rw [ho]

theorem downloadGo_last_noopen (outcomes : Nat → Att) (total i : Nat)
    (file : Option (List Nat)) (e : String) (ho : outcomes i = .failNoOpen e) :
    downloadGo outcomes total i 1 file = ⟨.raised (dlFailMsg total e), file, []⟩ := by
  conv_lhs => rw [downloadGo]
  rw [ho]
  rfl

theorem downloadGo_last_mid (outcomes : Nat → Att) (total i : Nat)
    (file : Option (List Nat)) (e : String) (d : List Nat) (ho : outcomes i = .failMid e d) :
    downloadGo outcomes total i 1 file = ⟨.raised (dlFailMsg total e), some d, []⟩ := by
  conv_lhs => rw [downloadGo]
  rw [ho]
  rfl

theorem downloadGo_step_noopen (outcomes : Nat → Att) (total i m : Nat)
    (file : Option (List Nat)) (e : String) (ho : outcomes i = .failNoOpen e) (hm : m ≠ 0) :
    downloadGo outcomes total i (m + 1) file =
      ⟨(downloadGo outcomes total (i + 1) m file).outcome,
       (downloadGo outcomes total (i + 1) m file).file,
       2 ^ i :: (downloadGo outcomes total (i + 1) m file).sleeps⟩ := by
  conv_lhs => rw [downloadGo]
  rw [ho]
  cases m with
  | zero => exact absurd rfl hm
  | succ p => rfl

theorem downloadGo_step_mid (outcomes : Nat → Att) (total i m : Nat)
    (file : Option (List Nat)) (e : String) (d : List Nat)
    (ho : outcomes i = .failMid e d) (hm : m ≠ 0) :
    downloadGo outcomes total i (m + 1) file =
      ⟨(downloadGo outcomes total (i + 1) m (some d)).outcome,
       (downloadGo outcomes total (i + 1) m (some d)).file,
       2 ^ i :: (downloadGo outcomes total (i + 1) m (some d)).sleeps⟩ := by
  conv_lhs => rw [downloadGo]
  rw [ho]
  cases m with
  | zero => exact absurd rfl hm
  | succ p => rfl

theorem range_pow_shift (i m : Nat) :
    (List.range (m + 1)).map (fun t => 2 ^ (i + t)) =
      2 ^ i :: (List.range m).map (fun t => 2 ^ (i + 1 + t)) := by
  rw [List.range_succ_eq_map, List.map_cons, List.map_map]
  have hf : ((fun t => 2 ^ (i + t)) ∘ Nat.succ) = fun t => 2 ^ (i + 1 + t) := by
    funext t
    simp only [Function.comp]
    congr 1
    omega
  rw [hf, Nat.add_zero]

theorem downloadGo_allFail (outcomes : Nat → Att) (total : Nat) :
    ∀ n i file, (∀ j, j ≤ n → attFails (outcomes (i + j)) = true) →
    (downloadGo outcomes total i (n + 1) file).outcome =
      .raised (dlFailMsg total (attErr (outcomes (i + n)))) ∧
    (downloadGo outcomes total i (n + 1) file).sleeps =
      (List.range n).map (fun t => 2 ^ (i + t)) := by
  intro n
  induction n with
  | zero =>
    intro i file hfail
    have h0 : attFails (outcomes i) = true := by simpa using hfail 0 (Nat.le_refl 0)
    cases ho : outcomes i with
    | ok d => rw [ho] at h0; simp [attFails] at h0
    | failNoOpen e => rw [downloadGo_last_noopen outcomes total i file e ho]; simp [ho, attErr]
    | failMid e d => rw [downloadGo_last_mid outcomes total i file e d ho]; simp [ho, attErr]
  | succ m ih =>
    intro i file hfail
    have h0 : attFails (outcomes i) = true := by simpa using hfail 0 (Nat.zero_le _)
    have hshift : ∀ j, j ≤ m → attFails (outcomes (i + 1 + j)) = true := by
      intro j hj
      have hx := hfail (j + 1) (by omega)
      have harith : i + (j + 1) = i + 1 + j := by omega
      rwa [harith] at hx
    have harith2 : i + 1 + m = i + (m + 1) := by omega
    have hfun : ∀ t, i + (t + 1) = i + 1 + t := by intro t; omega
    cases ho : outcomes i with
    | ok d => rw [ho] at h0; simp [attFails] at h0
    | failNoOpen e =>
      have ihh := ih (i + 1) file hshift
      rw [harith2] at ihh
      rw [downloadGo_step_noopen outcomes total i (m + 1) file e ho (Nat.succ_ne_zero m)]
      refine ⟨ihh.1, ?_⟩
      rw [ihh.2]
      exact (range_pow_shift i m).symm
    | failMid e d =>
      have ihh := ih (i + 1) (some d) hshift
      rw [harith2] at ihh
      rw [downloadGo_step_mid outcomes total i (m + 1) file e d ho (Nat.succ_ne_zero m)]
      refine ⟨ihh.1, ?_⟩
      rw [ihh.2]
      exact (range_pow_shift i m).symm

theorem downloadGo_success (outcomes : Nat → Att) (total : Nat) :
    ∀ k fuel i file d, k < fuel →
    (∀ j, j < k → attFails (outcomes (i + j)) = true) →
    outcomes (i + k) = .ok d →
    downloadGo outcomes total i fuel file =
      ⟨.returned true, some d, (List.range k).map (fun t => 2 ^ (i + t))⟩ := by
  intro k
  induction k with
  | zero =>
    intro fuel i file d hk _ hok
    cases fuel with
    | zero => omega
    | succ m =>
      rw [Nat.add_zero] at hok
      rw [downloadGo_step_ok outcomes total i m file d hok]
      rfl
  | succ k ih =>
    intro fuel i file d hk hfail hok
    have h0 : attFails (outcomes i) = true := by simpa using hfail 0 (Nat.succ_pos k)
    cases fuel with
    | zero => omega
    | succ m =>
      have hm : m ≠ 0 := by omega
      have hshift : ∀ j, j < k → attFails (outcomes (i + 1 + j)) = true := by
        intro j hj
        have hx := hfail (j + 1) (by omega)
        have harith : i + (j + 1) = i + 1 + j := by omega
        rwa [harith] at hx
      have hok2 : outcomes (i + 1 + k) = .ok d := by
        have harith : i + 1 + k = i + (k + 1) := by omega
        rwa [harith]
      have hfun : ∀ t, i + (t + 1) = i + 1 + t := by intro t; omega
      cases ho : outcomes i with
      | ok e => rw [ho] at h0; simp [attFails] at h0
      | failNoOpen e =>
        have ihh := ih m (i + 1) file d (by omega) hshift hok2
        rw [downloadGo_step_noopen outcomes total i m file e ho hm, ihh]
        rw [range_pow_shift i k]
      | failMid e pd =>
        have ihh := ih m (i + 1) (some pd) d (by omega) hshift hok2
        rw [downloadGo_step_mid outcomes total i m file e pd ho hm, ihh]
        rw [range_pow_shift i k]

/-- C7 amended: the retry loop makes at most retries attempts in total;
between consecutive failed attempts it sleeps 2 to the power of the
attempt index; when every attempt fails it raises an error whose message
names the attempt count and the last underlying cause - the URL does not
appear in the raised message; and because each attempt opens the
destination in mode wb, the file content after a successful attempt k is
exactly the data of that attempt, never appended to earlier partial
writes. -/
theorem c7_retry_contract_amended (url : String) (outcomes : Nat → Att)
    (file0 : Option (List Nat)) :
    (∀ n, (∀ j, j ≤ n → attFails (outcomes j) = true) →
      (downloadWithRetry url outcomes (n + 1) file0).outcome =
        .raised (dlFailMsg (n + 1) (attErr (outcomes n))) ∧
      (downloadWithRetry url outcomes (n + 1) file0).sleeps =
        (List.range n).map (fun t => 2 ^ t)) ∧
    (∀ k retries d, k < retries →
      (∀ j, j < k → attFails (outcomes j) = true) →
      outcomes k = .ok d →
      downloadWithRetry url outcomes retries file0 =
        ⟨.returned true, some d, (List.range k).map (fun t => 2 ^ t)⟩) := by
  constructor
  · intro n hfail
    have h := downloadGo_allFail outcomes (n + 1) n 0 file0 (by simpa using hfail)
    unfold downloadWithRetry
    refine ⟨by simpa using h.1, ?_⟩
    rw [h.2]
    simp
  · intro k retries d hk hfail hok
    have h := downloadGo_success outcomes retries k retries 0 file0 d hk
      (by simpa using hfail) (by simpa using hok)
    unfold downloadWithRetry
    rw [h]
    simp

/-- C7 counterexample: after three failed attempts for a concrete URL,
the raised message is the attempt-count-and-cause format and does not
contain the URL anywhere, contradicting the claim that the message names
the URL. -/
theorem c7_retry_message_counterexample :
    (downloadWithRetry "https://example.org/pkg.tar.gz"
      (fun _ => Att.failMid "timed out" [9]) 3 none).outcome =
      .raised "Failed to download after 3 attempts: timed out" ∧
    listContains ("Failed to download after 3 attempts: timed out").data
      ("https://example.org/pkg.tar.gz").data = false := by
  exact ⟨rfl, by decide⟩

/-- C7 witness: the amended theorem applied at concrete inputs, giving
the exact raised message and backoff list for three failures, and the
exact overwrite result for a failure followed by a success. -/
theorem c7_retry_contract_amended_witness :
    (downloadWithRetry "https://example.org/a.zip"
      (fun _ => Att.failMid "timed out" [9]) 3 none).outcome =
      .raised (dlFailMsg 3 "timed out") ∧
    (downloadWithRetry "https://example.org/a.zip"
      (fun _ => Att.failMid "timed out" [9]) 3 none).sleeps = [1, 2] ∧
    downloadWithRetry "https://example.org/b.zip"
        (fun i => if i = 0 then Att.failMid "reset" [1, 2] else Att.ok [5]) 3 none =
      ⟨.returned true, some [5], [1]⟩ := by
  have h1 := (c7_retry_contract_amended "https://example.org/a.zip"
    (fun _ => Att.failMid "timed out" [9]) none).1 2 (fun j _ => rfl)
  have h2 := (c7_retry_contract_amended "https://example.org/b.zip"
    (fun i => if i = 0 then Att.failMid "reset" [1, 2] else Att.ok [5]) none).2 1 3 [5]
    (by omega) (fun j hj => by
      have hj0 : j = 0 := by omega
      subst hj0
      rfl) rfl
  exact ⟨h1.1, h1.2.trans (by rfl), h2.trans (by rfl)⟩

theorem lcp_leading_left : ∀ a b : List String, isLeading (lcp a b) a := by
  intro a
  induction a with
  | nil => intro b; exact ⟨[], rfl⟩
  | cons x xs ih =>
    intro b
    cases b with
    | nil => exact ⟨x :: xs, rfl⟩
    | cons y ys =>
      by_cases hxy : x = y
      · subst hxy
        obtain ⟨t, ht⟩ := ih ys
        have hstep : lcp (x :: xs) (x :: ys) = x :: lcp xs ys := by simp [lcp]
        exact ⟨t, by rw [hstep, List.cons_append, ← ht]⟩
      · have hstep : lcp (x :: xs) (y :: ys) = [] := by simp [lcp, hxy]
        exact ⟨x :: xs, by rw [hstep]; rfl⟩

theorem lcp_leading_right : ∀ a b : List String, isLeading (lcp a b) b := by
  intro a
  induction a with
  | nil => intro b; exact ⟨b, rfl⟩
  | cons x xs ih =>
    intro b
    cases b with
    | nil => exact ⟨[], rfl⟩
    | cons y ys =>
      by_cases hxy : x = y
      · subst hxy
        obtain ⟨t, ht⟩ := ih ys
        have hstep : lcp (x :: xs) (x :: ys) = x :: lcp xs ys := by simp [lcp]
        exact ⟨t, by rw [hstep, List.cons_append, ← ht]⟩
      · have hstep : lcp (x :: xs) (y :: ys) = [] := by simp [lcp, hxy]
        exact ⟨y :: ys, by rw [hstep]; rfl⟩

theorem isLeading_trans {a b c : List String} (h1 : isLeading a b) (h2 : isLeading b c) :
    isLeading a c := by
  obtain ⟨t, rfl⟩ := h1
  obtain ⟨s, rfl⟩ := h2
  exact ⟨t ++ s, List.append_assoc a t s⟩

theorem foldl_lcp_leading_acc : ∀ cs acc, isLeading (List.foldl lcp acc cs) acc := by
  intro cs
  induction cs with
  | nil => intro acc; exact ⟨[], (List.append_nil acc).symm⟩
  | cons c cs ih =>
    intro acc
    exact isLeading_trans (ih (lcp acc c)) (lcp_leading_left acc c)

theorem foldl_lcp_leading_mem : ∀ cs acc l, l ∈ cs → isLeading (List.foldl lcp acc cs) l := by
  intro cs
  induction cs with
  | nil => intro acc l h; cases h
  | cons c cs ih =>
    intro acc l hl
    rcases List.mem_cons.mp hl with rfl | hl2
    · exact isLeading_trans (foldl_lcp_leading_acc cs (lcp acc l)) (lcp_leading_right acc l)
    · exact ih (lcp acc c) l hl2

theorem foldl_lcp_headed (d : String) : ∀ cs x, (∀ l ∈ cs, ∃ t, l = d :: t) →
    ∃ w, List.foldl lcp (d :: x) cs = d :: w := by
  intro cs
  induction cs with
  | nil => intro x _; exact ⟨x, rfl⟩
  | cons c cs ih =>
    intro x hall
    obtain ⟨t, ht⟩ := hall c (List.mem_cons_self c cs)
    subst ht
    have hstep : lcp (d :: x) (d :: t) = d :: lcp x t := by simp [lcp]
    show ∃ w, List.foldl lcp (lcp (d :: x) (d :: t)) cs = d :: w
    rw [hstep]
    exact ih (lcp x t) (fun l hl => hall l (List.mem_cons_of_mem _ hl))

theorem commonpath_single_top (d : String) (members : List String)
    (h1 : ∀ m ∈ members, ∃ t, pathComponents m = d :: t)
    (h2 : ∃ m1, m1 ∈ members ∧ ∃ m2, m2 ∈ members ∧ ∃ r1 t1 r2 t2,
      pathComponents m1 = d :: r1 :: t1 ∧ pathComponents m2 = d :: r2 :: t2 ∧ r1 ≠ r2) :
    commonpath members = d := by
  obtain ⟨m1, hm1, m2, hm2, r1, t1, r2, t2, hc1, hc2, hne⟩ := h2
  cases members with
  | nil => cases hm1
  | cons m ms =>
    obtain ⟨x0, hx0⟩ := h1 m (List.mem_cons_self m ms)
    have hheaded : ∀ l ∈ ms.map pathComponents, ∃ t, l = d :: t := by
      intro l hl
      obtain ⟨mm, hmm, rfl⟩ := List.mem_map.mp hl
      exact h1 mm (List.mem_cons_of_mem _ hmm)
    obtain ⟨w, hw⟩ := foldl_lcp_headed d (ms.map pathComponents) x0 hheaded
    have hcp : commonpath (m :: ms) = joinComps (d :: w) := by
      simp only [commonpath, List.map]
      rw [hx0, hw]
    have lead1 : isLeading (d :: w) (pathComponents m1) := by
      rcases List.mem_cons.mp hm1 with rfl | hm1b
      · rw [← hw, hx0]
        exact foldl_lcp_leading_acc _ _
      · rw [← hw]
        exact foldl_lcp_leading_mem _ _ _ (List.mem_map_of_mem _ hm1b)
    have lead2 : isLeading (d :: w) (pathComponents m2) := by
      rcases List.mem_cons.mp hm2 with rfl | hm2b
      · rw [← hw, hx0]
        exact foldl_lcp_leading_acc _ _
      · rw [← hw]
        exact foldl_lcp_leading_mem _ _ _ (List.mem_map_of_mem _ hm2b)
    cases w with
    | nil => rw [hcp]; rfl
    | cons v vs =>
      exfalso
      obtain ⟨s1, hs1⟩ := lead1
      obtain ⟨s2, hs2⟩ := lead2
      rw [hc1] at hs1
      rw [hc2] at hs2
      simp only [List.cons_append, List.cons.injEq] at hs1 hs2
      exact hne (hs1.2.1.trans hs2.2.1.symm)

/-- C2 amended: an archive in which every entry sits under a single
top-level directory d, with at least two entries diverging immediately
below d, computes common prefix d, which contains no separator, so both
the zip and the tar extraction are verbatim: the entries keep their
original paths and everything stays nested under d inside dest_dir.
Prefix stripping happens only when the common prefix of all entries
contains a path separator. -/
theorem c2_single_topdir_amended (d : String) (members : List String)
    (hds : strHasSlash d = false)
    (h0 : ∀ m ∈ members, strStarts m (d ++ "/") = true)
    (h1 : ∀ m ∈ members, ∃ t, pathComponents m = d :: t)
    (h2 : ∃ m1, m1 ∈ members ∧ ∃ m2, m2 ∈ members ∧ ∃ r1 t1 r2 t2,
      pathComponents m1 = d :: r1 :: t1 ∧ pathComponents m2 = d :: r2 :: t2 ∧ r1 ≠ r2) :
    extractZip members = members ∧ extractTar members = members ∧
    ∀ p ∈ extractZip members, strStarts p (d ++ "/") = true := by
  have hcp := commonpath_single_top d members h1 h2
  have hne : members ≠ [] := by
    obtain ⟨m1, hm1, _⟩ := h2
    intro h
    subst h
    cases hm1
  have hie : members.isEmpty = false := by
    cases members with
    | nil => exact absurd rfl hne
    | cons m ms => rfl
  have hz : extractZip members = members := by
    simp [extractZip, hie, hcp, hds]
  have ht : extractTar members = members := by
    simp [extractTar, hie, hcp, hds]
  refine ⟨hz, ht, ?_⟩
  rw [hz]
  exact h0

/-- C2 counterexample: a concrete two-entry archive nested under
foo-1.0 extracts verbatim, so dest_dir/foo-1.0 exists afterwards,
contradicting the claimed round-trip that strips the enclosing
directory. -/
theorem c2_single_topdir_counterexample :
    extractZip ["foo-1.0/a.txt", "foo-1.0/b/c.txt"] =
      ["foo-1.0/a.txt", "foo-1.0/b/c.txt"] ∧
    extractTar ["foo-1.0/a.txt", "foo-1.0/b/c.txt"] =
      ["foo-1.0/a.txt", "foo-1.0/b/c.txt"] ∧
    ((extractZip ["foo-1.0/a.txt", "foo-1.0/b/c.txt"]).any
      (fun p => strStarts p "foo-1.0/")) = true := by
  exact ⟨by decide, by decide, by decide⟩

/-- C2 witness: the amended theorem applied at the concrete two-entry
archive. -/
theorem c2_single_topdir_amended_witness :
    extractZip ["foo-1.0/a.txt", "foo-1.0/b/c.txt"] =
      ["foo-1.0/a.txt", "foo-1.0/b/c.txt"] ∧
    extractTar ["foo-1.0/a.txt", "foo-1.0/b/c.txt"] =
      ["foo-1.0/a.txt", "foo-1.0/b/c.txt"] ∧
    ∀ p ∈ extractZip ["foo-1.0/a.txt", "foo-1.0/b/c.txt"],
      strStarts p ("foo-1.0" ++ "/") = true := by
  refine c2_single_topdir_amended "foo-1.0" ["foo-1.0/a.txt", "foo-1.0/b/c.txt"]
    (by decide) ?_ ?_ ?_
  · intro m hm
    simp only [List.mem_cons, List.not_mem_nil, or_false] at hm
    rcases hm with rfl | rfl <;> decide
  · intro m hm
    simp only [List.mem_cons, List.not_mem_nil, or_false] at hm
    rcases hm with rfl | rfl
    · exact ⟨["a.txt"], by decide⟩
    · exact ⟨["b", "c.txt"], by decide⟩
  · exact ⟨"foo-1.0/a.txt", by simp, "foo-1.0/b/c.txt", by simp,
      "a.txt", [], "b", ["c.txt"], by decide, by decide, by decide⟩

theorem strExt {a b : String} (h : a.data = b.data) : a = b := by
  cases a
  cases b
  exact congrArg String.mk h

theorem listAppendCancel {α : Type} : ∀ (as bs cs : List α), as ++ bs = as ++ cs → bs = cs := by
  intro as
  induction as with
  | nil => intro bs cs h; simpa using h
  | cons a as ih =>
    intro bs cs h
    rw [List.cons_append, List.cons_append] at h
    exact ih bs cs (List.cons.inj h).2

theorem infoSafe_parts (i : Info) (h : infoSafe i = true) :
    jsonSafe i.version = true ∧ jsonSafe i.git_tag = true ∧
    jsonSafe i.github_repository = true ∧ jsonSafe i.git_repository = true ∧
    jsonSafe i.url = true := by
  simp only [infoSafe, Bool.and_eq_true] at h
  exact ⟨h.1.1.1.1, h.1.1.1.2, h.1.1.2, h.1.2, h.2⟩

theorem jsonEscapeChar_safe (c : Char) (h32 : 32 ≤ c.toNat) (h126 : c.toNat ≤ 126)
    (hq : c ≠ '\"') (hb : c ≠ '\\') : jsonEscapeChar c = [c] := by
  have hn : c ≠ '\n' := by intro hh; rw [hh] at h32; exact absurd h32 (by decide)
  have ht : c ≠ '\t' := by intro hh; rw [hh] at h32; exact absurd h32 (by decide)
  have hr : c ≠ '\r' := by intro hh; rw [hh] at h32; exact absurd h32 (by decide)
  have h8 : ¬(c.toNat = 8) := by omega
  have h12 : ¬(c.toNat = 12) := by omega
  simp only [jsonEscapeChar, if_neg hq, if_neg hb, if_neg hn, if_neg ht, if_neg hr,
    if_neg h8, if_neg h12]
  rw [if_neg]
  simp only [Bool.or_eq_true, decide_eq_true_eq]
  omega

theorem escChars_safe (s : String) (h : jsonSafe s = true) : escChars s = s.data := by
  unfold jsonSafe at h
  unfold escChars
  suffices hgen : ∀ l : List Char,
      (l.all (fun c => 32 ≤ c.toNat && c.toNat ≤ 126 && c != '\"' && c != '\\')) = true →
      (l.map jsonEscapeChar).flatten = l by
    exact hgen s.data h
  intro l hl
  induction l with
  | nil => rfl
  | cons c cs ih =>
    rw [List.all_cons, Bool.and_eq_true] at hl
    obtain ⟨hc, hcs⟩ := hl
    simp only [Bool.and_eq_true, decide_eq_true_eq, bne_iff_ne] at hc
    obtain ⟨⟨⟨hc32, hc126⟩, hcq⟩, hcb⟩ := hc
    rw [List.map_cons, List.flatten_cons, jsonEscapeChar_safe c hc32 hc126 hcq hcb, ih hcs]
    rfl

theorem jsonSafe_noquote (s : String) (h : jsonSafe s = true) : '\"' ∉ s.data := by
  intro hm
  unfold jsonSafe at h
  rw [List.all_eq_true] at h
  have hx := h _ hm
  simp at hx

theorem quote_sep_inj : ∀ (a b r1 r2 : List Char), '\"' ∉ a → '\"' ∉ b →
    a ++ '\"' :: r1 = b ++ '\"' :: r2 → a = b ∧ r1 = r2 := by
  intro a
  induction a with
  | nil =>
    intro b r1 r2 _ hb h
    cases b with
    | nil => simpa using h
    | cons c bs =>
      rw [List.nil_append, List.cons_append] at h
      obtain ⟨hc, _⟩ := List.cons.inj h
      exact absurd (show ('\"') ∈ c :: bs by rw [hc]; exact List.mem_cons_self c bs) hb
  | cons x xs ih =>
    intro b r1 r2 ha hb h
    cases b with
    | nil =>
      rw [List.nil_append, List.cons_append] at h
      obtain ⟨hc, _⟩ := List.cons.inj h
      exact absurd (show ('\"') ∈ x :: xs by rw [← hc]; exact List.mem_cons_self x xs) ha
    | cons y ys =>
      rw [List.cons_append, List.cons_append] at h
      obtain ⟨hxy, hrest⟩ := List.cons.inj h
      have ha2 : '\"' ∉ xs := fun hm => ha (List.mem_cons_of_mem _ hm)
      have hb2 : '\"' ∉ ys := fun hm => hb (List.mem_cons_of_mem _ hm)
      obtain ⟨he, hr⟩ := ih ys r1 r2 ha2 hb2 hrest
      exact ⟨by rw [hxy, he], hr⟩

theorem serializeInfo_inj (i1 i2 : Info) (h1 : infoSafe i1 = true) (h2 : infoSafe i2 = true)
    (hne : i1 ≠ i2) : serializeInfo i1 ≠ serializeInfo i2 := by
  intro heq
  apply hne
  have hd : serializeChars i1 = serializeChars i2 := congrArg String.data heq
  obtain ⟨p1v, p1t, p1g, p1r, p1u⟩ := infoSafe_parts i1 h1
  obtain ⟨p2v, p2t, p2g, p2r, p2u⟩ := infoSafe_parts i2 h2
  unfold serializeChars at hd
  rw [escChars_safe _ p1r, escChars_safe _ p1t, escChars_safe _ p1g, escChars_safe _ p1u,
    escChars_safe _ p1v, escChars_safe _ p2r, escChars_safe _ p2t, escChars_safe _ p2g,
    escChars_safe _ p2u, escChars_safe _ p2v] at hd
  simp only [List.append_assoc, List.cons_append, List.nil_append, List.cons.injEq,
    true_and] at hd
  obtain ⟨er, hd2⟩ := quote_sep_inj _ _ _ _ (jsonSafe_noquote _ p1r) (jsonSafe_noquote _ p2r) hd
  simp only [List.cons.injEq, true_and] at hd2
  obtain ⟨et, hd4⟩ := quote_sep_inj _ _ _ _ (jsonSafe_noquote _ p1t) (jsonSafe_noquote _ p2t) hd2
  simp only [List.cons.injEq, true_and] at hd4
  obtain ⟨eg, hd6⟩ := quote_sep_inj _ _ _ _ (jsonSafe_noquote _ p1g) (jsonSafe_noquote _ p2g) hd4
  simp only [List.cons.injEq, true_and] at hd6
  obtain ⟨eu, hd8⟩ := quote_sep_inj _ _ _ _ (jsonSafe_noquote _ p1u) (jsonSafe_noquote _ p2u) hd6
  simp only [List.cons.injEq, true_and] at hd8
  obtain ⟨ev, _⟩ := quote_sep_inj _ _ _ _ (jsonSafe_noquote _ p1v) (jsonSafe_noquote _ p2v) hd8
  cases i1
  cases i2
  simp only at er et eg eu ev
  rw [strExt er, strExt et, strExt eg, strExt eu, strExt ev]

/-- C1 amended: for descriptors differing in any hashed identity field -
version, git_tag, github_repository, git_repository or url, all JSON-safe -
the canonical serializations differ, so the fingerprints differ unless the
truncated sha256 collides on the two distinct serializations; and whenever
the fingerprints differ, a run against a package directory and record
built from the first descriptor under the same name emits the REFETCH
status. The name is not part of the hashed record, so it is excluded here;
see the counterexample. -/
theorem c1_identity_sensitivity_amended (cacheDir : String) (a1 a2 : Args) (env : Env)
    (hs1 : infoSafe (newInfo a1) = true) (hs2 : infoSafe (newInfo a2) = true)
    (hne : newInfo a1 ≠ newInfo a2) :
    serializeInfo (newInfo a1) ≠ serializeInfo (newInfo a2) ∧
    (getPackageHash (newInfo a1) ≠ getPackageHash (newInfo a2) →
      Status.refetch a2.name ∈
        (processPackage cacheDir a2 ⟨true, .record (newInfo a1)⟩ env).statuses) := by
  refine ⟨serializeInfo_inj _ _ hs1 hs2 hne, ?_⟩
  intro hfp
  have hb : (getPackageHash (newInfo a1) == getPackageHash (newInfo a2)) = false := by
    rw [beq_eq_false_iff_ne]
    exact hfp
  have hiv : isCacheValid (newInfo a2) ⟨true, .record (newInfo a1)⟩ = .ok false := by
    simp [isCacheValid, hb]
  rw [processPackage_eq_refetch cacheDir a2 _ env rfl hiv, fetchPhase_statuses]
  simp

/-- C1 counterexample: two descriptors differing only in name share a
fingerprint, because process_package hashes only the five new_info fields;
and a run with the renamed descriptor looks under the new name, finds no
directory, and performs a fresh fetch without ever emitting REFETCH -
contradicting the claim that name is fingerprint-relevant and that the
run reports REFETCH. -/
theorem c1_name_field_counterexample :
    getPackageHash (newInfo d1Args) = getPackageHash (newInfo d2Args) ∧
    Status.refetch "beta" ∉
      (processPackage "cache" d2Args ⟨false, .absent⟩ envAllOk).statuses := by
  constructor
  · exact congrArg getPackageHash rfl
  · rw [processPackage_eq_fresh "cache" d2Args _ envAllOk rfl, fetchPhase_statuses]
    simp

/-- C1 witness: the amended theorem applied to two concrete descriptors
differing in version, with the fingerprint inequality discharged by
computing both sha256 digests. -/
theorem c1_identity_sensitivity_amended_witness :
    serializeInfo (newInfo d1Args) ≠ serializeInfo (newInfo d3Args) ∧
    Status.refetch "alpha" ∈
      (processPackage "cache" d3Args ⟨true, .record (newInfo d1Args)⟩ envAllOk).statuses := by
  have h := c1_identity_sensitivity_amended "cache" d1Args d3Args envAllOk
    (by decide) (by decide) (by decide)
  exact ⟨h.1, h.2 (by decide)⟩

/-- C8: update tolerance. git_helper.update_full returns true exactly when
the fetch and the hard reset both exit zero and the submodule update does
not time out; in particular it returns false whenever fetch or reset fails
with a nonzero exit or a timeout, while a nonzero exit of the submodule
update step is tolerated and the update still reports success. Both
exception kinds raised by the three subprocess calls are caught by the
surrounding handler, so the function always returns a boolean. -/
theorem c8_update_tolerance (fetchRes resetRes subRes : GitRes) :
    updateFull fetchRes resetRes subRes = true ↔
      (fetchRes = .ok ∧ resetRes = .ok ∧ subRes ≠ .timeout) := by
  cases fetchRes <;> cases resetRes <;> cases subRes <;> simp [updateFull]
